import Mathlib

/-!
Verification of `scripts/hooks/validate-changelog.py`.

The validator reads the changelog text, applies a fixed rule set and returns
a pass/fail verdict plus ordered `errors` and `warnings` lists.  The whole
pipeline is embedded below over `List Char` (the raw file content); every
regular expression of the script is translated into an explicit recursive
matcher with the same semantics (multiline anchoring, greedy fixed-shape
groups, non-overlapping scanning for `findall`).
-/

/-! ### Character classes (Python `re` classes, ASCII range) -/

/-- Python `\s` on ASCII text: space, tab, newline, carriage return,
vertical tab, form feed. -/
def pyIsSpace (c : Char) : Bool :=
  decide (c = ' ' ∨ c = '\t' ∨ c = '\n' ∨ c = '\r' ∨ c = Char.ofNat 11 ∨ c = Char.ofNat 12)

/-- Python `\w` on ASCII text: letters, digits, underscore. -/
def isWordChar (c : Char) : Bool :=
  c.isAlphanum || decide (c = '_')

/-! ### Basic string operations -/

/-- `str.startswith`: the first list is a leading segment of the second. -/
def isPre : List Char → List Char → Bool
  | [], _ => true
  | _ :: _, [] => false
  | p :: ps, c :: cs => decide (p = c) && isPre ps cs

/-- Remove a leading segment, returning the remainder when it is present. -/
def stripPre : List Char → List Char → Option (List Char)
  | [], s => some s
  | _ :: _, [] => none
  | p :: ps, c :: cs => if p = c then stripPre ps cs else none

/-- Python `needle in haystack`: substring occurrence anywhere. -/
def containsSub : List Char → List Char → Bool
  | p, [] => decide (p = [])
  | p, c :: cs => isPre p (c :: cs) || containsSub p cs

/-- Python `content.split('\n')`: always returns at least one piece. -/
def splitOnNl : List Char → List (List Char)
  | [] => [[]]
  | c :: cs =>
    if c = '\n' then [] :: splitOnNl cs
    else
      match splitOnNl cs with
      | [] => [[c]]
      | l :: ls => (c :: l) :: ls

/-- Maximal leading run of characters satisfying `p`, paired with the rest. -/
def takeWhileCap (p : Char → Bool) : List Char → List Char × List Char
  | [] => ([], [])
  | c :: cs =>
    if p c then
      let r := takeWhileCap p cs
      (c :: r.1, r.2)
    else ([], c :: cs)

/-- `\s+` (greedy, at least one): consume the maximal whitespace run. -/
def takeSpaces1 (s : List Char) : Option (List Char) :=
  let r := takeWhileCap pyIsSpace s
  if r.1 = [] then none else some r.2

/-- `\d{n}`: consume exactly `n` digits, capturing them. -/
def takeDigitsCap : Nat → List Char → Option (List Char × List Char)
  | 0, s => some ([], s)
  | _ + 1, [] => none
  | n + 1, c :: cs =>
    if c.isDigit then (takeDigitsCap n cs).map (fun r => (c :: r.1, r.2)) else none

/-! ### Fixed strings of the script -/

def hChangelogList : List Char := "# Changelog".toList

def kclKey : List Char := "keepachangelog.com".toList

def semverKey : List Char := "semver.org".toList

def hdr4List : List Char := "## [".toList

def hdrUList : List Char := "## [Unreleased]".toList

def cat4List : List Char := "### ".toList

def uLabel : List Char := "Unreleased".toList

def linkPre1 : List Char := "[Unreleased]: http://".toList

def linkPre2 : List Char := "[Unreleased]: https://".toList

/-- ASCII single quote, kept out of string literals. -/
def sqChar : Char := Char.ofNat 39

def VALID_CATEGORIES : List (List Char) :=
  ["Added".toList, "Changed".toList, "Deprecated".toList,
   "Removed".toList, "Fixed".toList, "Security".toList]

/-! ### Diagnostic messages (the exact strings appended by the script) -/

def headerErr : List Char :=
  "First line must be ".toList ++ sqChar :: "# Changelog".toList ++ [sqChar]

def kclWarn : List Char := "Missing Keep a Changelog reference".toList

def semverWarn : List Char := "Missing Semantic Versioning reference".toList

def noSectionsErr : List Char :=
  "No version sections found (expected at least ## [Unreleased])".toList

def missingUnreleasedErr : List Char := "Missing ## [Unreleased] section".toList

def missingDateWarn (v : List Char) : List Char :=
  "Version [".toList ++ v ++ "] is missing a date".toList

def dateFormatErr (v d : List Char) : List Char :=
  "Version [".toList ++ v ++ "] has invalid date format: ".toList ++ d
    ++ " (expected YYYY-MM-DD)".toList

def noCategoriesWarn : List Char :=
  "[Unreleased] section has no categories (Added/Changed/Fixed/etc.)".toList

def invalidCatsWarn (cats : List (List Char)) : List Char :=
  "Invalid categories in [Unreleased]: ".toList ++ List.intercalate (", ".toList) cats

def validCatsWarn : List Char :=
  "Valid categories: ".toList ++ List.intercalate (", ".toList) VALID_CATEGORIES

def emptySectionWarn : List Char :=
  "[Unreleased] section appears to be empty (no bullet points)".toList

def altBulletWarn : List Char :=
  "Use ".toList ++ sqChar :: "- ".toList ++ [sqChar] ++ " for lists, not ".toList
    ++ sqChar :: "* ".toList ++ [sqChar] ++ " or ".toList ++ sqChar :: "+ ".toList ++ [sqChar]

def compLinkWarn : List Char := "Missing comparison link for [Unreleased]".toList

/-! ### The version-section pattern
`^## \[([^\]]+)\](?:\s+-\s+(\d{4}-\d{2}-\d{2}))?` with `re.MULTILINE`,
consumed with `findall` (script line 56-57). -/

/-- The optional date group `(?:\s+-\s+(\d{4}-\d{2}-\d{2}))?`: whitespace,
dash, whitespace, then exactly the ten-character digit shape, captured. -/
def matchDateSuffix (s : List Char) : Option (List Char × List Char) :=
  match takeSpaces1 s with
  | none => none
  | some s1 =>
    match s1 with
    | '-' :: s2 =>
      match takeSpaces1 s2 with
      | none => none
      | some s3 =>
        match takeDigitsCap 4 s3 with
        | none => none
        | some (w4, s4) =>
          match s4 with
          | '-' :: s5 =>
            match takeDigitsCap 2 s5 with
            | none => none
            | some (w2, s6) =>
              match s6 with
              | '-' :: s7 =>
                match takeDigitsCap 2 s7 with
                | none => none
                | some (w3, s8) => some (w4 ++ '-' :: w2 ++ '-' :: w3, s8)
              | _ => none
          | _ => none
    | _ => none

/-- One attempted match of the version pattern at a line-start position:
`## [`, a nonempty bracket-free label, `]`, then the optional date group.
Returns the captured label, the captured date (`[]` when the group did not
participate, like the empty string that Python reports), after the match. -/
def matchVersionAt (s : List Char) : Option (List Char × List Char × List Char) :=
  match stripPre hdr4List s with
  | none => none
  | some s1 =>
    if (takeWhileCap (fun c => decide (c ≠ ']')) s1).1 = [] then none
    else
      match (takeWhileCap (fun c => decide (c ≠ ']')) s1).2 with
      | ']' :: s3 =>
        match matchDateSuffix s3 with
        | some (d, s4) => some ((takeWhileCap (fun c => decide (c ≠ ']')) s1).1, d, s4)
        | none => some ((takeWhileCap (fun c => decide (c ≠ ']')) s1).1, [], s3)
      | _ => none

/-- `findall` scan: walk the text, attempt the anchored pattern at every
line start, skip over each match (non-overlapping).  Every step consumes at
least one character, so fuel `length + 1` always suffices. -/
def scanVF : Nat → List Char → Bool → List (List Char × List Char)
  | 0, _, _ => []
  | _ + 1, [], _ => []
  | fuel + 1, c :: cs, atStart =>
    if atStart then
      match matchVersionAt (c :: cs) with
      | some (l, d, r) => (l, d) :: scanVF fuel r false
      | none => scanVF fuel cs (decide (c = '\n'))
    else scanVF fuel cs (decide (c = '\n'))

/-- `version_pattern.findall(content)` (script line 57). -/
def scanVersions (content : List Char) : List (List Char × List Char) :=
  scanVF (content.length + 1) content true

/-! ### The Unreleased slice
`re.search` over the content with pattern `## \[Unreleased\](.*?)(?=## \[|$)` and `re.DOTALL`
(script line 76).  The lazy group stops at the first position where `## [`
begins, or where `$` matches (end of text, or just before a final newline
since `re.MULTILINE` is not set). -/

/-- The lazy `(.*?)(?=## \[|$)` group over the text after the header. -/
def lazyTake : List Char → List Char
  | [] => []
  | c :: cs =>
    if (stripPre hdr4List (c :: cs)).isSome then []
    else if c :: cs = ['\n'] then []
    else c :: lazyTake cs

/-- Leftmost occurrence of `## [Unreleased]` anywhere in the text (the
search is not line-anchored), with the lazily captured group after it. -/
def unreleasedSlice : List Char → Option (List Char)
  | [] => none
  | c :: cs =>
    match stripPre hdrUList (c :: cs) with
    | some r => some (lazyTake r)
    | none => unreleasedSlice cs

/-! ### Category headers inside the slice
`^### (\w+)` with `re.MULTILINE`, consumed with `findall` (script line 81-82). -/

def matchCategoryAt (s : List Char) : Option (List Char × List Char) :=
  match stripPre cat4List s with
  | none => none
  | some s1 =>
    if (takeWhileCap isWordChar s1).1 = [] then none
    else some ((takeWhileCap isWordChar s1).1, (takeWhileCap isWordChar s1).2)

def scanCatsF : Nat → List Char → Bool → List (List Char)
  | 0, _, _ => []
  | _ + 1, [], _ => []
  | fuel + 1, c :: cs, atStart =>
    if atStart then
      match matchCategoryAt (c :: cs) with
      | some (w, r) => w :: scanCatsF fuel r false
      | none => scanCatsF fuel cs (decide (c = '\n'))
    else scanCatsF fuel cs (decide (c = '\n'))

/-- `category_pattern.findall(unreleased_content)` (script line 82). -/
def scanCategories (u : List Char) : List (List Char) :=
  scanCatsF (u.length + 1) u true

/-! ### Remaining single-regex checks.  Each pattern is line-anchored and
cannot match a newline, so a per-line test over `split('\n')` pieces is the
exact multiline-anchor semantics. -/

/-- The `re.search` with pattern `^- \S` and `re.MULTILINE` over the slice (line 94). -/
def hasBulletEntry (u : List Char) : Bool :=
  (splitOnNl u).any fun l =>
    match l with
    | '-' :: ' ' :: c :: _ => !pyIsSpace c
    | _ => false

/-- The `re.search` with pattern `^[\*\+] ` and `re.MULTILINE` over the content (line 100). -/
def hasAltBullet (content : List Char) : Bool :=
  (splitOnNl content).any fun l =>
    match l with
    | c :: ' ' :: _ => decide (c = '*' ∨ c = '+')
    | _ => false

/-- The `re.search` with pattern `^\[Unreleased\]: https?://` and `re.MULTILINE` (line 106). -/
def hasUnreleasedLink (content : List Char) : Bool :=
  (splitOnNl content).any fun l => isPre linkPre1 l || isPre linkPre2 l

/-- The `re.match` of pattern `\d{4}-\d{2}-\d{2}` against the date (line 72): an unanchored
prefix match of the ten-character digit shape. -/
def parseDate (s : List Char) : Option (List Char) :=
  match takeDigitsCap 4 s with
  | none => none
  | some (_, s1) =>
    match s1 with
    | '-' :: s2 =>
      match takeDigitsCap 2 s2 with
      | none => none
      | some (_, s3) =>
        match s3 with
        | '-' :: s4 => (takeDigitsCap 2 s4).map (fun r => r.2)
        | _ => none
    | _ => none

def matchesDateShape (d : List Char) : Bool :=
  (parseDate d).isSome

/-! ### Rule engine (script lines 43-107) -/

/-- Rule 1 (line 43-45): the first `split('\n')` piece must start with
`# Changelog`, otherwise the header error. -/
def headerErrors (content : List Char) : List (List Char) :=
  if isPre hChangelogList ((splitOnNl content).headD []) then [] else [headerErr]

/-- Rules 2-3 (lines 47-53): reference warnings. -/
def refWarnings (content : List Char) : List (List Char) :=
  (if containsSub kclKey content then [] else [kclWarn])
    ++ (if containsSub semverKey content then [] else [semverWarn])

/-- The per-version loop body for warnings (lines 67-69): non-Unreleased
sections with an empty date string get a missing-date warning. -/
def dateWarnings (vs : List (List Char × List Char)) : List (List Char) :=
  vs.filterMap fun p =>
    if p.1 ≠ uLabel ∧ p.2 = [] then some (missingDateWarn p.1) else none

/-- The per-version loop body for errors (lines 71-73): a nonempty date
failing the prefix shape check gets a format error. -/
def dateErrors (vs : List (List Char × List Char)) : List (List Char) :=
  vs.filterMap fun p =>
    if p.2 ≠ [] ∧ matchesDateShape p.2 = false then some (dateFormatErr p.1 p.2) else none

/-- Rule 4 (lines 59-73), error side: no sections at all is an error;
otherwise a missing `Unreleased` label is an error and the date loop runs. -/
def sectionErrors (vs : List (List Char × List Char)) : List (List Char) :=
  if vs = [] then [noSectionsErr]
  else
    (if vs.any (fun p => decide (p.1 = uLabel)) then [] else [missingUnreleasedErr])
      ++ dateErrors vs

/-- Rule 4, warning side: the date loop only runs when sections exist. -/
def versionWarnings (vs : List (List Char × List Char)) : List (List Char) :=
  if vs = [] then [] else dateWarnings vs

/-- Rule 5 (lines 77-96): warnings computed from the Unreleased slice. -/
def unreleasedWarnings (u : List Char) : List (List Char) :=
  let cats := scanCategories u
  if cats = [] then [noCategoriesWarn]
  else
    (let invalid := cats.filter fun c => !(VALID_CATEGORIES.contains c)
     if invalid = [] then [] else [invalidCatsWarn invalid, validCatsWarn])
      ++ (if hasBulletEntry u then [] else [emptySectionWarn])

def unrelSectionWarnings (content : List Char) : List (List Char) :=
  match unreleasedSlice content with
  | none => []
  | some u => unreleasedWarnings u

/-- Rule 6 (lines 100-101): alternate bullet markers. -/
def listStyleWarnings (content : List Char) : List (List Char) :=
  if hasAltBullet content then [altBulletWarn] else []

/-- Rule 7 (lines 104-107): comparison link, only with two or more sections. -/
def compLinkWarnings (content : List Char) : List (List Char) :=
  if scanVersions content ≠ [] ∧ (scanVersions content).length > 1 then
    if hasUnreleasedLink content then [] else [compLinkWarn]
  else []

/-- The `errors` list in the order the script appends (lines 43-73). -/
def errorsOf (content : List Char) : List (List Char) :=
  headerErrors content ++ sectionErrors (scanVersions content)

/-- The `warnings_list` in the order the script appends (lines 47-107). -/
def warningsOf (content : List Char) : List (List Char) :=
  refWarnings content ++ versionWarnings (scanVersions content)
    ++ unrelSectionWarnings content ++ listStyleWarnings content
    ++ compLinkWarnings content

/-- `validate_changelog` diagnostics for a present file with this content. -/
def validate (content : List Char) : List (List Char) × List (List Char) :=
  (errorsOf content, warningsOf content)

/-- The boolean return value (lines 114-129): `False` when errors exist,
`True` otherwise. -/
def validateReturn (content : List Char) : Bool :=
  if errorsOf content ≠ [] then false else true

/-- `sys.exit(0 if validate_changelog(...) else 1)` (line 133). -/
def mainExitCode (content : List Char) : Nat :=
  if validateReturn content then 0 else 1

/-! ### Auxiliary notions used to state the scan lemmas -/

/-- The line-start flag the scan carries after walking over a piece of text
character by character. -/
def afterScan : List Char → Bool → Bool
  | [], a => a
  | c :: cs, _ => afterScan cs (decide (c = '\n'))

/-- No occurrence of `## [` begins at any position inside the first list
(the second list is the continuation of the text). -/
def noHdrStartWithin : List Char → List Char → Bool
  | [], _ => true
  | c :: cs, rest =>
    !(stripPre hdr4List (c :: (cs ++ rest))).isSome && noHdrStartWithin cs rest

/-! ### Concrete inputs of the end-to-end scenarios -/

/-- Two proper `## [Unreleased]` header lines, each preceded by an
unterminated `## [` line that swallows it into a captured label. -/
def cex9 : List Char :=
  "## [a\n## [Unreleased]\n## [b\n## [Unreleased]\n".toList

/-! ### Helper lemmas -/

lemma splitOnNl_ne_nil : ∀ c : List Char, splitOnNl c ≠ [] := by
  intro c
  cases c with
  | nil => simp [splitOnNl]
  | cons a as =>
    by_cases h : a = '\n'
    · simp [splitOnNl, h]
    · simp only [splitOnNl, if_neg h]
      cases hs : splitOnNl as <;> simp

lemma takeDigitsCap_spec :
    ∀ n s w r, takeDigitsCap n s = some (w, r) →
      w.length = n ∧ w.all Char.isDigit = true ∧ s = w ++ r := by
  intro n
  induction n with
  | zero =>
    intro s w r h
    simp only [takeDigitsCap, Option.some.injEq, Prod.mk.injEq] at h
    obtain ⟨h1, h2⟩ := h
    subst h1; subst h2; simp
  | succ n ih =>
    intro s w r h
    cases s with
    | nil => simp [takeDigitsCap] at h
    | cons c cs =>
      simp only [takeDigitsCap] at h
      by_cases hd : c.isDigit
      · rw [if_pos hd] at h
        rcases Option.map_eq_some'.1 h with ⟨⟨w', r'⟩, hw, he⟩
        obtain ⟨hw1, hw2, hw3⟩ := ih cs w' r' hw
        simp only [Prod.mk.injEq] at he
        obtain ⟨he1, he2⟩ := he
        subst he1; subst he2
        refine ⟨by simp [hw1], ?_, by simp [hw3]⟩
        simp [List.all_cons, hd, hw2]
      · rw [if_neg hd] at h
        exact absurd h (by simp)

lemma takeDigitsCap_exact :
    ∀ w t, w.all Char.isDigit = true → takeDigitsCap w.length (w ++ t) = some (w, t) := by
  intro w
  induction w with
  | nil => intro t _; simp [takeDigitsCap]
  | cons c cs ih =>
    intro t hall
    simp only [List.all_cons, Bool.and_eq_true] at hall
    simp only [List.length_cons, List.cons_append, takeDigitsCap, if_pos hall.1,
      List.append_eq]
    rw [ih t hall.2]
    rfl

lemma matchDateSuffix_matches :
    ∀ s d r, matchDateSuffix s = some (d, r) → matchesDateShape d = true := by
  intro s d r h
  unfold matchDateSuffix at h
  split at h
  · exact absurd h (by simp)
  · rename_i s1 heq1
    split at h
    · rename_i s2
      split at h
      · exact absurd h (by simp)
      · rename_i s3 heq2
        split at h
        · exact absurd h (by simp)
        · rename_i w4 s4 heq4
          split at h
          · rename_i s5
            split at h
            · exact absurd h (by simp)
            · rename_i w2 s6 heq5
              split at h
              · rename_i s7
                split at h
                · exact absurd h (by simp)
                · rename_i w3 s8 heq6
                  simp only [Option.some.injEq, Prod.mk.injEq] at h
                  obtain ⟨hd, _⟩ := h
                  obtain ⟨hl4, hd4, _⟩ := takeDigitsCap_spec _ _ _ _ heq4
                  obtain ⟨hl2, hd2, _⟩ := takeDigitsCap_spec _ _ _ _ heq5
                  obtain ⟨hl3, hd3, _⟩ := takeDigitsCap_spec _ _ _ _ heq6
                  subst hd
                  unfold matchesDateShape parseDate
                  have e4 := takeDigitsCap_exact w4 ('-' :: (w2 ++ '-' :: w3)) hd4
                  rw [hl4] at e4
                  have e2 := takeDigitsCap_exact w2 ('-' :: w3) hd2
                  rw [hl2] at e2
                  have e3 := takeDigitsCap_exact w3 [] hd3
                  rw [hl3, List.append_nil] at e3
                  simp [e4, e2, e3]
              · exact absurd h (by simp)
          · exact absurd h (by simp)
    · exact absurd h (by simp)

lemma matchVersionAt_date :
    ∀ s l d r, matchVersionAt s = some (l, d, r) →
      d = [] ∨ matchesDateShape d = true := by
  intro s l d r h
  unfold matchVersionAt at h
  split at h
  · exact absurd h (by simp)
  · rename_i s1 heq
    split at h
    · exact absurd h (by simp)
    · split at h
      · rename_i s3
        split at h
        · rename_i d' s4 hds
          simp only [Option.some.injEq, Prod.mk.injEq] at h
          obtain ⟨_, h2, _⟩ := h
          subst h2
          exact Or.inr (matchDateSuffix_matches _ _ _ hds)
        · simp only [Option.some.injEq, Prod.mk.injEq] at h
          exact Or.inl h.2.1.symm
      · exact absurd h (by simp)

lemma scanVF_dates :
    ∀ fuel s a p, p ∈ scanVF fuel s a → p.2 = [] ∨ matchesDateShape p.2 = true := by
  intro fuel
  induction fuel with
  | zero => intro s a p h; simp [scanVF] at h
  | succ fuel ih =>
    intro s a p h
    cases s with
    | nil => simp [scanVF] at h
    | cons c cs =>
      simp only [scanVF] at h
      cases a with
      | false =>
        rw [if_neg (by simp)] at h
        exact ih _ _ _ h
      | true =>
        rw [if_pos rfl] at h
        split at h
        · rename_i l d r hm
          rcases List.mem_cons.1 h with h1 | h1
          · subst h1
            exact matchVersionAt_date _ _ _ _ hm
          · exact ih _ _ _ h1
        · exact ih _ _ _ h

lemma dateErrors_nil_of (vs : List (List Char × List Char))
    (h : ∀ p ∈ vs, p.2 = [] ∨ matchesDateShape p.2 = true) : dateErrors vs = [] := by
  unfold dateErrors
  rw [List.filterMap_eq_nil_iff]
  intro q hq
  rcases h q hq with h1 | h1 <;> simp [h1]

lemma dateErrors_scan_nil (c : List Char) : dateErrors (scanVersions c) = [] :=
  dateErrors_nil_of _ (fun _p hp => scanVF_dates _ _ _ _ hp)

lemma mem_headerErrors {x : List Char} {c : List Char}
    (h : x ∈ headerErrors c) : x = headerErr := by
  unfold headerErrors at h
  split at h
  · simp at h
  · simpa using h

lemma mem_sectionErrors {x : List Char} {vs : List (List Char × List Char)}
    (hd : dateErrors vs = []) (h : x ∈ sectionErrors vs) :
    x = noSectionsErr ∨ x = missingUnreleasedErr := by
  unfold sectionErrors at h
  split at h
  · simp at h; exact Or.inl h
  · rw [hd, List.append_nil] at h
    split at h
    · simp at h
    · simp at h; exact Or.inr h

/-! ### Claim theorems -/

/-- C1: for every input text, the returned verdict is `true` exactly when the
errors list is empty (warnings play no role), and the process exit code is 0
exactly when the verdict is `true`, 1 otherwise. -/
theorem c1_valid_iff_no_errors (c : List Char) :
    (validateReturn c = true ↔ errorsOf c = [])
  ∧ (mainExitCode c = 0 ↔ validateReturn c = true)
  ∧ (mainExitCode c = 1 ↔ validateReturn c = false) := by
  unfold mainExitCode validateReturn
  by_cases h : errorsOf c = [] <;> simp [h]

theorem c1_valid_iff_no_errors_witness :
    (validateReturn ("".toList) = true ↔ errorsOf ("".toList) = [])
  ∧ (mainExitCode ("".toList) = 0 ↔ validateReturn ("".toList) = true)
  ∧ (mainExitCode ("".toList) = 1 ↔ validateReturn ("".toList) = false) :=
  c1_valid_iff_no_errors ("".toList)

/-- C2: whenever the first line does not start with `# Changelog`, the header
error is reported and the verdict is `false`, whatever the rest contains. -/
theorem c2_header_error (c : List Char)
    (h : isPre hChangelogList ((splitOnNl c).headD []) = false) :
    headerErr ∈ errorsOf c ∧ validateReturn c = false := by
  have hh : headerErrors c = [headerErr] := by
    unfold headerErrors
    rw [h]
    simp
  have hne : errorsOf c ≠ [] := by
    unfold errorsOf
    rw [hh]
    simp
  constructor
  · unfold errorsOf
    rw [hh]
    exact List.mem_append_left _ (by simp)
  · unfold validateReturn
    simp [hne]

theorem c2_header_error_witness :
    isPre hChangelogList ((splitOnNl ("x".toList)).headD []) = false
  ∧ (headerErr ∈ errorsOf ("x".toList) ∧ validateReturn ("x".toList) = false) :=
  ⟨by decide, c2_header_error ("x".toList) (by decide)⟩

/-- C3: the per-version date rules of the engine: a section carrying a date
that fails the `YYYY-MM-DD` prefix shape contributes a date-format error
naming that version, while a non-Unreleased section with no date contributes
a missing-date warning and never a date error. -/
theorem c3_date_error_and_missing_date_warning
    (vs ws : List (List Char × List Char)) (v d v2 : List Char)
    (h1 : (v, d) ∈ vs) (h2 : d ≠ []) (h3 : matchesDateShape d = false)
    (h4 : (v2, ([] : List Char)) ∈ ws) (h5 : v2 ≠ uLabel) :
    dateFormatErr v d ∈ sectionErrors vs
  ∧ missingDateWarn v2 ∈ dateWarnings ws
  ∧ dateErrors [(v2, ([] : List Char))] = [] := by
  refine ⟨?_, ?_, ?_⟩
  · have hvs : ¬ vs = [] := by
      intro he
      rw [he] at h1
      simp at h1
    unfold sectionErrors
    rw [if_neg hvs]
    refine List.mem_append_right _ ?_
    unfold dateErrors
    exact List.mem_filterMap.2 ⟨(v, d), h1, by simp [h2, h3]⟩
  · unfold dateWarnings
    exact List.mem_filterMap.2 ⟨(v2, []), h4, by simp [h5]⟩
  · unfold dateErrors
    simp

theorem c3_date_error_and_missing_date_warning_witness :
    (("1.0.0".toList, "bad".toList) ∈ [(("1.0.0".toList : List Char), ("bad".toList : List Char))]
  ∧ "bad".toList ≠ ([] : List Char)
  ∧ matchesDateShape ("bad".toList) = false
  ∧ ("2.0.0".toList, ([] : List Char)) ∈ [(("2.0.0".toList : List Char), ([] : List Char))]
  ∧ "2.0.0".toList ≠ uLabel)
  ∧ (dateFormatErr ("1.0.0".toList) ("bad".toList)
      ∈ sectionErrors [(("1.0.0".toList : List Char), ("bad".toList : List Char))]
  ∧ missingDateWarn ("2.0.0".toList)
      ∈ dateWarnings [(("2.0.0".toList : List Char), ([] : List Char))]
  ∧ dateErrors [(("2.0.0".toList : List Char), ([] : List Char))] = []) :=
  ⟨⟨by decide, by decide, by decide, by decide, by decide⟩,
   c3_date_error_and_missing_date_warning _ _ _ _ _
     (by decide) (by decide) (by decide) (by decide) (by decide)⟩

/-- C4: the section-extraction pattern only captures a date when it already
has the digit shape, so across every input the date-format error branch is
unreachable: no date-format error ever reaches the errors list. -/
theorem c4_date_error_unreachable (c : List Char) :
    dateErrors (scanVersions c) = []
  ∧ (∀ p ∈ scanVersions c, p.2 = [] ∨ matchesDateShape p.2 = true)
  ∧ ∀ v d, dateFormatErr v d ∉ errorsOf c := by
  refine ⟨dateErrors_scan_nil c, fun p hp => scanVF_dates _ _ _ _ hp, ?_⟩
  intro v d hmem
  have hV : (dateFormatErr v d).headD ' ' = 'V' := rfl
  unfold errorsOf at hmem
  rcases List.mem_append.1 hmem with hx | hx
  · have h1 := mem_headerErrors hx
    rw [h1] at hV
    exact absurd hV (by decide)
  · rcases mem_sectionErrors (dateErrors_scan_nil c) hx with h1 | h1 <;>
      · rw [h1] at hV
        exact absurd hV (by decide)

theorem c4_date_error_unreachable_witness :
    dateErrors (scanVersions ("x".toList)) = []
  ∧ dateFormatErr ("v".toList) ("d".toList) ∉ errorsOf ("x".toList) :=
  ⟨(c4_date_error_unreachable ("x".toList)).1,
   (c4_date_error_unreachable ("x".toList)).2.2 ("v".toList) ("d".toList)⟩

def input5 : List Char :=
  "# Changelog\n\n## [Unreleased]\n### Added\n- New feature\n".toList

/-- C5: the minimal valid changelog passes with no errors; its warnings are
exactly the two missing-reference warnings, and in particular no
comparison-link warning appears since only one section exists. -/
theorem c5_minimal_valid_changelog :
    errorsOf input5 = []
  ∧ warningsOf input5 = [kclWarn, semverWarn]
  ∧ compLinkWarn ∉ warningsOf input5
  ∧ validateReturn input5 = true := by decide

def input6 : List Char :=
  "# Changelog\n\n## [1.0.0] - 2024-13-45\n### Added\n- X\n".toList

/-- C6: with no Unreleased section the missing-Unreleased error appears, and
the date `2024-13-45` passes the digit-shape check (no calendar validation),
so no date error is produced. -/
theorem c6_no_calendar_validation :
    missingUnreleasedErr ∈ errorsOf input6
  ∧ scanVersions input6 = [("1.0.0".toList, "2024-13-45".toList)]
  ∧ matchesDateShape ("2024-13-45".toList) = true
  ∧ dateErrors (scanVersions input6) = [] := by decide

/-- C7: validation is total: the one unguarded indexing (`lines[0]`) is
safe because splitting always yields a piece, every input produces a
diagnostics pair, and the empty string yields exactly the header error and
the no-version-sections error. -/
theorem c7_total_on_malformed_input :
    (∀ c : List Char, splitOnNl c ≠ [])
  ∧ errorsOf ("".toList) = [headerErr, noSectionsErr]
  ∧ warningsOf ("".toList) = [kclWarn, semverWarn]
  ∧ ∀ c : List Char, validate c = (errorsOf c, warningsOf c) :=
  ⟨splitOnNl_ne_nil, by decide, by decide, fun _ => rfl⟩

/-- C8: validation is deterministic: identical input texts yield identical
errors, warnings and verdict; the result is a pure function of the text. -/
theorem c8_deterministic (c₁ c₂ : List Char) (h : c₁ = c₂) :
    validate c₁ = validate c₂ ∧ validateReturn c₁ = validateReturn c₂ := by
  subst h
  exact ⟨rfl, rfl⟩

theorem c8_deterministic_witness :
    ("a".toList = "a".toList)
  ∧ (validate ("a".toList) = validate ("a".toList)
    ∧ validateReturn ("a".toList) = validateReturn ("a".toList)) :=
  ⟨rfl, c8_deterministic ("a".toList) ("a".toList) rfl⟩

/-! ### Lemmas for the duplicate-Unreleased analysis -/

lemma stripPre_append_self : ∀ p x : List Char, stripPre p (p ++ x) = some x := by
  intro p
  induction p with
  | nil => intro x; rfl
  | cons c cs ih => intro x; simp [stripPre, ih]

lemma stripPre_isSome_of_append :
    ∀ p q s : List Char, (stripPre (p ++ q) s).isSome = true →
      (stripPre p s).isSome = true := by
  intro p
  induction p with
  | nil => intro q s _; rfl
  | cons c cs ih =>
    intro q s h
    cases s with
    | nil => simp [stripPre] at h
    | cons a as =>
      simp only [List.cons_append, stripPre] at h ⊢
      by_cases hc : c = a
      · rw [if_pos hc] at h ⊢
        exact ih q as h
      · rw [if_neg hc] at h
        simp at h

lemma hdrU_decomp : hdrUList = hdr4List ++ "Unreleased]".toList := by decide

lemma stripPre_hdrU_isSome {s : List Char}
    (h : (stripPre hdrUList s).isSome = true) :
    (stripPre hdr4List s).isSome = true := by
  rw [hdrU_decomp] at h
  exact stripPre_isSome_of_append _ _ _ h

lemma matchVersionAt_none {s : List Char}
    (h : (stripPre hdr4List s).isSome = false) : matchVersionAt s = none := by
  unfold matchVersionAt
  cases hs : stripPre hdr4List s with
  | none => rfl
  | some r => rw [hs] at h; simp at h

lemma takeWhileCap_append (p : Char → Bool) :
    ∀ l x t, (∀ c ∈ l, p c = true) → p x = false →
      takeWhileCap p (l ++ x :: t) = (l, x :: t) := by
  intro l
  induction l with
  | nil =>
    intro x t _ hx
    simp [takeWhileCap, hx]
  | cons c cs ih =>
    intro x t hall hx
    have hc : p c = true := hall c (by simp)
    simp only [List.cons_append, takeWhileCap, if_pos hc, List.append_eq,
      ih x t (fun a ha => hall a (by simp [ha])) hx]

lemma scanVF_skip :
    ∀ pre rest f a, noHdrStartWithin pre rest = true →
      scanVF (pre.length + (f + 1)) (pre ++ rest) a
        = scanVF (f + 1) rest (afterScan pre a) := by
  intro pre
  induction pre with
  | nil => intro rest f a _; simp [afterScan]
  | cons c cs ih =>
    intro rest f a h
    simp only [noHdrStartWithin, Bool.and_eq_true, Bool.not_eq_true'] at h
    have hnone : matchVersionAt (c :: (cs ++ rest)) = none := matchVersionAt_none h.1
    have hlen : (c :: cs).length + (f + 1) = (cs.length + (f + 1)) + 1 := by
      simp [List.length_cons]
      omega
    rw [List.cons_append, hlen]
    show scanVF ((cs.length + (f + 1)) + 1) (c :: (cs ++ rest)) a = _
    have hstep :
        scanVF ((cs.length + (f + 1)) + 1) (c :: (cs ++ rest)) a
          = scanVF (cs.length + (f + 1)) (cs ++ rest) (decide (c = '\n')) := by
      cases a with
      | true => simp [scanVF, hnone]
      | false => simp [scanVF]
    rw [hstep, ih rest f (decide (c = '\n')) h.2]
    rfl

lemma unreleasedSlice_skip :
    ∀ pre rest, noHdrStartWithin pre rest = true →
      unreleasedSlice (pre ++ rest) = unreleasedSlice rest := by
  intro pre
  induction pre with
  | nil => intro rest _; rfl
  | cons c cs ih =>
    intro rest h
    simp only [noHdrStartWithin, Bool.and_eq_true, Bool.not_eq_true'] at h
    have hnone : stripPre hdrUList (c :: (cs ++ rest)) = none := by
      cases hs : stripPre hdrUList (c :: (cs ++ rest)) with
      | none => rfl
      | some r =>
        have := stripPre_hdrU_isSome (by rw [hs]; rfl)
        rw [h.1] at this
        simp at this
    rw [List.cons_append]
    show unreleasedSlice (c :: (cs ++ rest)) = _
    simp only [unreleasedSlice, hnone]
    exact ih rest h.2

lemma lazyTake_append :
    ∀ mid post', noHdrStartWithin mid post' = true →
      (stripPre hdr4List post').isSome = true →
      lazyTake (mid ++ post') = mid := by
  intro mid
  induction mid with
  | nil =>
    intro post' _ h2
    cases post' with
    | nil => simp [stripPre] at h2
    | cons a as => simp [lazyTake, h2]
  | cons c cs ih =>
    intro post' h h2
    simp only [noHdrStartWithin, Bool.and_eq_true, Bool.not_eq_true'] at h
    have hne : cs ++ post' ≠ [] := by
      intro he
      rcases List.append_eq_nil.1 he with ⟨_, h4⟩
      rw [h4] at h2
      simp [stripPre] at h2
    rw [List.cons_append]
    show lazyTake (c :: (cs ++ post')) = c :: cs
    simp only [lazyTake, h.1]
    rw [if_neg (by simp [hne]), if_neg (by simp [hne])]
    rw [ih post' h.2 h2]

lemma matchVersionAt_hdrU (X : List Char) :
    ∃ p : List Char × List Char, matchVersionAt (hdrUList ++ X) = some (uLabel, p) := by
  have hstrip : stripPre hdr4List (hdrUList ++ X) = some ("Unreleased]".toList ++ X) := by
    rw [hdrU_decomp, List.append_assoc]
    exact stripPre_append_self _ _
  have heqU : ("Unreleased]".toList : List Char) ++ X = uLabel ++ (']' :: X) := by
    rw [show ("Unreleased]".toList : List Char) = uLabel ++ [']'] from by decide,
      List.append_assoc]
    rfl
  have htw : takeWhileCap (fun c => decide (c ≠ ']')) ("Unreleased]".toList ++ X)
      = (uLabel, ']' :: X) := by
    rw [heqU]
    exact takeWhileCap_append _ uLabel ']' X (by decide) (by decide)
  have hul : ¬ uLabel = [] := by decide
  simp only [matchVersionAt, hstrip, htw]
  cases hds : matchDateSuffix X with
  | some q =>
    obtain ⟨qd, qr⟩ := q
    exact ⟨(qd, qr), by simp [hds, hul]⟩
  | none => exact ⟨([], X), by simp [hds, hul]⟩

lemma scanVersions_hdrU (pre X : List Char)
    (h1 : afterScan pre true = true)
    (h2 : noHdrStartWithin pre (hdrUList ++ X) = true) :
    ∃ d tail, scanVersions (pre ++ (hdrUList ++ X)) = (uLabel, d) :: tail := by
  rcases matchVersionAt_hdrU X with ⟨⟨d0, r0⟩, hp⟩
  have hfuel : (pre ++ (hdrUList ++ X)).length + 1
      = pre.length + ((hdrUList ++ X).length + 1) := by
    simp [List.length_append]
    omega
  unfold scanVersions
  rw [hfuel, scanVF_skip pre (hdrUList ++ X) ((hdrUList ++ X).length) true h2, h1]
  generalize (hdrUList ++ X).length = n
  have hconsform : hdrUList ++ X = '#' :: ("# [Unreleased]".toList ++ X) := by
    rw [show hdrUList = '#' :: "# [Unreleased]".toList from by decide]
    rfl
  refine ⟨d0, scanVF n r0 false, ?_⟩
  rw [hconsform]
  simp only [scanVF]
  rw [← hconsform, hp]
  simp

lemma mem_refWarnings {x c : List Char} (h : x ∈ refWarnings c) :
    x = kclWarn ∨ x = semverWarn := by
  unfold refWarnings at h
  rcases List.mem_append.1 h with h1 | h1
  · split at h1
    · simp at h1
    · simp at h1
      exact Or.inl h1
  · split at h1
    · simp at h1
    · simp at h1
      exact Or.inr h1

lemma emptySectionWarn_notin_dateWarnings (vs : List (List Char × List Char)) :
    emptySectionWarn ∉ dateWarnings vs := by
  intro h
  unfold dateWarnings at h
  rcases List.mem_filterMap.1 h with ⟨p, _, hp⟩
  split at hp
  · simp only [Option.some.injEq] at hp
    have hV : (missingDateWarn p.1).headD ' ' = 'V' := rfl
    rw [hp] at hV
    exact absurd hV (by decide)
  · simp at hp

/-- C9 counterexample: this input contains two line-start `## [Unreleased]`
header lines, yet the missing-Unreleased error is emitted, because each
header is swallowed into the label captured for the preceding unterminated
`## [` line. -/
theorem c9_duplicate_unreleased_cex :
    ((splitOnNl cex9).filter (fun l => isPre hdrUList l)).length = 2
  ∧ missingUnreleasedErr ∈ errorsOf cex9 := by decide

/-- C9 (amended): when the first `## [Unreleased]` header is at a line start
and no `## [` occurrence begins before it (so the section regex matches it),
the Unreleased-presence rule is satisfied, and the Unreleased-content checks
examine exactly the text between that header and the next `## [` occurrence
(here the second Unreleased header), ignoring everything after it. -/
theorem c9_duplicate_unreleased_amended (pre mid post : List Char)
    (h1 : afterScan pre true = true)
    (h2 : noHdrStartWithin pre (hdrUList ++ (mid ++ (hdrUList ++ post))) = true)
    (h3 : noHdrStartWithin mid (hdrUList ++ post) = true) :
    missingUnreleasedErr ∉ errorsOf (pre ++ (hdrUList ++ (mid ++ (hdrUList ++ post))))
  ∧ unreleasedSlice (pre ++ (hdrUList ++ (mid ++ (hdrUList ++ post)))) = some mid := by
  obtain ⟨d0, tail, hscan⟩ := scanVersions_hdrU pre (mid ++ (hdrUList ++ post)) h1 h2
  constructor
  · intro hmem
    have hne : ¬ scanVersions (pre ++ (hdrUList ++ (mid ++ (hdrUList ++ post)))) = [] := by
      rw [hscan]
      simp
    have hany : (scanVersions (pre ++ (hdrUList ++ (mid ++ (hdrUList ++ post))))).any
        (fun q => decide (q.1 = uLabel)) = true := by
      rw [hscan]
      simp
    have hsec :
        sectionErrors (scanVersions (pre ++ (hdrUList ++ (mid ++ (hdrUList ++ post)))))
          = dateErrors (scanVersions (pre ++ (hdrUList ++ (mid ++ (hdrUList ++ post))))) := by
      unfold sectionErrors
      rw [if_neg hne, hany]
      simp
    have herr : errorsOf (pre ++ (hdrUList ++ (mid ++ (hdrUList ++ post))))
        = headerErrors (pre ++ (hdrUList ++ (mid ++ (hdrUList ++ post)))) := by
      unfold errorsOf
      rw [hsec, dateErrors_scan_nil, List.append_nil]
    rw [herr] at hmem
    have hme := mem_headerErrors hmem
    exact absurd hme (by decide)
  · rw [unreleasedSlice_skip pre _ h2]
    have hconsform : hdrUList ++ (mid ++ (hdrUList ++ post))
        = '#' :: ("# [Unreleased]".toList ++ (mid ++ (hdrUList ++ post))) := by
      rw [show hdrUList = '#' :: "# [Unreleased]".toList from by decide]
      rfl
    rw [hconsform]
    simp only [unreleasedSlice]
    rw [← hconsform, stripPre_append_self]
    show some (lazyTake (mid ++ (hdrUList ++ post))) = some mid
    have hstr4 : (stripPre hdr4List (hdrUList ++ post)).isSome = true := by
      rw [hdrU_decomp, List.append_assoc, stripPre_append_self]
      rfl
    rw [lazyTake_append mid (hdrUList ++ post) h3 hstr4]

theorem c9_duplicate_unreleased_witness :
    (afterScan ("# Changelog\n".toList) true = true
  ∧ noHdrStartWithin ("# Changelog\n".toList)
      (hdrUList ++ ("\n### Added\n- x\n".toList ++ (hdrUList ++ "\n".toList))) = true
  ∧ noHdrStartWithin ("\n### Added\n- x\n".toList) (hdrUList ++ "\n".toList) = true)
  ∧ (missingUnreleasedErr ∉ errorsOf
      ("# Changelog\n".toList ++ (hdrUList ++ ("\n### Added\n- x\n".toList ++ (hdrUList ++ "\n".toList))))
  ∧ unreleasedSlice
      ("# Changelog\n".toList ++ (hdrUList ++ ("\n### Added\n- x\n".toList ++ (hdrUList ++ "\n".toList))))
      = some ("\n### Added\n- x\n".toList)) :=
  ⟨⟨by decide, by decide, by decide⟩,
   c9_duplicate_unreleased_amended ("# Changelog\n".toList) ("\n### Added\n- x\n".toList)
     ("\n".toList) (by decide) (by decide) (by decide)⟩

/-- C10: the empty-section warning can only arise when the Unreleased slice
has at least one category header: with zero category headers the section
checks produce exactly the no-categories warning, and the empty-section
warning is absent from the whole warnings list. -/
theorem c10_empty_warning_needs_categories (c u : List Char)
    (h1 : unreleasedSlice c = some u) (h2 : scanCategories u = []) :
    unreleasedWarnings u = [noCategoriesWarn]
  ∧ emptySectionWarn ∉ warningsOf c
  ∧ noCategoriesWarn ∈ warningsOf c := by
  have hu : unreleasedWarnings u = [noCategoriesWarn] := by
    unfold unreleasedWarnings
    rw [h2]
    simp
  have hw : unrelSectionWarnings c = [noCategoriesWarn] := by
    unfold unrelSectionWarnings
    rw [h1]
    exact hu
  refine ⟨hu, ?_, ?_⟩
  · intro hmem
    unfold warningsOf at hmem
    simp only [List.mem_append] at hmem
    rcases hmem with ((((hh | hh) | hh) | hh) | hh)
    · rcases mem_refWarnings hh with he | he <;> exact absurd he (by decide)
    · unfold versionWarnings at hh
      split at hh
      · simp at hh
      · exact absurd hh (emptySectionWarn_notin_dateWarnings _)
    · rw [hw] at hh
      simp at hh
      exact absurd hh (by decide)
    · unfold listStyleWarnings at hh
      split at hh
      · simp at hh
        exact absurd hh (by decide)
      · simp at hh
    · unfold compLinkWarnings at hh
      split at hh
      · split at hh
        · simp at hh
        · simp at hh
          exact absurd hh (by decide)
      · simp at hh
  · unfold warningsOf
    simp [List.mem_append, hw]

theorem c10_empty_warning_needs_categories_witness :
    (unreleasedSlice ("## [Unreleased]\n".toList) = some []
  ∧ scanCategories [] = [])
  ∧ (unreleasedWarnings [] = [noCategoriesWarn]
  ∧ emptySectionWarn ∉ warningsOf ("## [Unreleased]\n".toList)
  ∧ noCategoriesWarn ∈ warningsOf ("## [Unreleased]\n".toList)) :=
  ⟨⟨by decide, by decide⟩,
   c10_empty_warning_needs_categories ("## [Unreleased]\n".toList) [] (by decide) (by decide)⟩

theorem c7_total_on_malformed_input_witness :
    splitOnNl ("a".toList) ≠ []
  ∧ validate ("a".toList) = (errorsOf ("a".toList), warningsOf ("a".toList)) :=
  ⟨c7_total_on_malformed_input.1 ("a".toList),
   c7_total_on_malformed_input.2.2.2 ("a".toList)⟩
